import Mathlib

/-!
Verification of the VoiceSync signaling core: a shallow embedding of the
server registries (src/server/users.js, src/server/rooms.js), the message
dispatcher (src/server/handlers.js), the client signaling transport
(src/client/signaling.js), the client session coordinator
(src/client/session.js) and the room-key utilities (src/utils/roomKey.js),
together with proofs of the specified properties.

JavaScript `Map` objects are embedded as insertion-ordered association
lists; `Map.set` replaces in place or appends, `Map.delete` removes the
(unique) matching entry, and iteration follows list order, exactly as the
JS semantics guarantees.  Strings are Lean strings; the JS string helpers
used by the source (`trim`, `toUpperCase`, `toLowerCase`, `slice(0, 32)`)
are embedded character-wise (the repository only feeds them ASCII).
-/

set_option autoImplicit false
set_option maxRecDepth 8000
set_option maxHeartbeats 1000000

namespace VoiceSync

/-- JS `Map.prototype.get`: first (unique) entry with the given key. -/
def mapGet {κ β : Type} [DecidableEq κ] : List (κ × β) → κ → Option β
  | [], _ => none
  | (k, v) :: t, key => if k = key then some v else mapGet t key

/-- JS `Map.prototype.set`: replace the entry in place, else append. -/
def mapSet {κ β : Type} [DecidableEq κ] : List (κ × β) → κ → β → List (κ × β)
  | [], key, val => [(key, val)]
  | (k, v) :: t, key, val =>
      if k = key then (key, val) :: t else (k, v) :: mapSet t key val

/-- JS `Map.prototype.delete`: drop the (unique) entry with the key. -/
def mapDelete {κ β : Type} [DecidableEq κ] : List (κ × β) → κ → List (κ × β)
  | [], _ => []
  | (k, v) :: t, key => if k = key then t else (k, v) :: mapDelete t key

/-! Character-wise embedding of the JS string operations the source uses. -/

/-- JS `String.prototype.toUpperCase`, ASCII fragment. -/
def jsCharUpper (c : Char) : Char :=
  if 'a' ≤ c ∧ c ≤ 'z' then Char.ofNat (c.toNat - 32) else c

/-- JS `String.prototype.toLowerCase`, ASCII fragment. -/
def jsCharLower (c : Char) : Char :=
  if 'A' ≤ c ∧ c ≤ 'Z' then Char.ofNat (c.toNat + 32) else c

def jsToUpper (s : String) : String := String.mk (s.data.map jsCharUpper)

def jsToLower (s : String) : String := String.mk (s.data.map jsCharLower)

/-- The ASCII whitespace characters stripped by JS `trim`. -/
def isJsWhitespace (c : Char) : Bool :=
  c = ' ' || c = '\t' || c = '\n' || c = '\r' || c = '\x0b' || c = '\x0c'

def jsTrimList (l : List Char) : List Char :=
  ((l.dropWhile isJsWhitespace).reverse.dropWhile isJsWhitespace).reverse

/-- JS `String.prototype.trim` (ASCII whitespace). -/
def jsTrim (s : String) : String := String.mk (jsTrimList s.data)

/-! Room keys — src/utils/roomKey.js. -/

/-- The 27-symbol alphabet of `src/utils/roomKey.js`. -/
def ALPHABET : String := "ACDEFGHJKMNPQRTUVWXYZ234679"

def isSegChar (c : Char) : Bool := ALPHABET.data.contains c

/-- The regex `ROOM_KEY_RE`: three 3-character alphabet segments joined
by hyphens, anchored at both ends. -/
def matchesRoomKeyRe (l : List Char) : Bool :=
  match l with
  | [a, b, c, h1, d, e, f, h2, g, h, i] =>
      h1 = '-' && h2 = '-' && [a, b, c, d, e, f, g, h, i].all isSegChar
  | _ => false

/-- `isValidRoomKey`: uppercase the key, then test it against the regex. -/
def isValidRoomKey (key : String) : Bool :=
  matchesRoomKeyRe (jsToUpper key).data

/-- `normaliseRoomKey`: `key.toUpperCase().trim()`. -/
def normaliseRoomKey (key : String) : String := jsTrim (jsToUpper key)

/-! Sockets.  A WebSocket handle is identified by an id; `readyStateOpen`
embeds `ws.readyState === WS_OPEN` at the moment a message is handled. -/

structure Socket where
  id : String
  readyStateOpen : Bool
deriving DecidableEq

/-! User registry — src/server/users.js. -/

structure OnlineUser where
  peerId : String
  username : String
  socket : Socket
  roomKey : Option String
deriving DecidableEq

abbrev Users := List (String × OnlineUser)

/-- `findByUsername`: first user (in insertion order) whose name matches
case-insensitively. -/
def findByUsername (users : Users) (username : String) : Option OnlineUser :=
  (users.map Prod.snd).find? (fun u => jsToLower u.username == jsToLower username)

structure RegisterResult where
  users : Users
  ok : Bool
  conflict : Bool
deriving DecidableEq

/-- `registerUser`: reject on a case-insensitive name conflict, else insert. -/
def registerUser (users : Users) (peerId username : String) (socket : Socket) :
    RegisterResult :=
  if (findByUsername users username).isSome then ⟨users, false, true⟩
  else ⟨mapSet users peerId ⟨peerId, username, socket, none⟩, true, false⟩

def unregisterUser (users : Users) (peerId : String) : Users :=
  mapDelete users peerId

def findById (users : Users) (peerId : String) : Option OnlineUser :=
  mapGet users peerId

/-- `setUserRoom`: mutate the user's room field; no-op on unknown ids. -/
def setUserRoom (users : Users) (peerId : String) (roomKey : Option String) : Users :=
  match mapGet users peerId with
  | some u => mapSet users peerId { u with roomKey := roomKey }
  | none => users

/-! Room registry — src/server/rooms.js. -/

structure RoomPeer where
  username : String
  socket : Socket
deriving DecidableEq

structure Room where
  key : String
  hostPeerId : String
  peers : List (String × RoomPeer)
  createdAt : Nat
deriving DecidableEq

abbrev Rooms := List (String × Room)

/-- `createRoom`.  The generated key and the creation time are passed in as
arguments because `generateRoomKey()` draws from a cryptographic RNG and
`new Date()` reads the clock. -/
def createRoom (rooms : Rooms) (key : String) (now : Nat)
    (hostPeerId hostUsername : String) (socket : Socket) : Rooms × Room :=
  let room : Room := ⟨key, hostPeerId, [(hostPeerId, ⟨hostUsername, socket⟩)], now⟩
  (mapSet rooms key room, room)

structure RoomErr where
  message : String
  code : String
deriving DecidableEq

/-- `joinRoom`: throws ROOM_NOT_FOUND / ALREADY_IN_ROOM, else inserts the
peer and returns the updated room. -/
def joinRoom (rooms : Rooms) (key peerId username : String) (socket : Socket) :
    Except RoomErr (Rooms × Room) :=
  match mapGet rooms key with
  | none => .error ⟨s!"Room \"{key}\" does not exist.", "ROOM_NOT_FOUND"⟩
  | some room =>
    if (mapGet room.peers peerId).isSome then
      .error ⟨"Already in this room.", "ALREADY_IN_ROOM"⟩
    else
      let room2 := { room with peers := mapSet room.peers peerId ⟨username, socket⟩ }
      .ok (mapSet rooms key room2, room2)

structure LeaveResult where
  rooms : Rooms
  room : Option Room
  wasEmpty : Bool
deriving DecidableEq

/-- `leaveRoom`: remove the peer; delete the room when it becomes empty;
unknown keys yield room = none, wasEmpty = true. -/
def leaveRoom (rooms : Rooms) (key peerId : String) : LeaveResult :=
  match mapGet rooms key with
  | none => ⟨rooms, none, true⟩
  | some room =>
    let peers2 := mapDelete room.peers peerId
    let room2 := { room with peers := peers2 }
    let wasEmpty := peers2.isEmpty
    ⟨if wasEmpty then mapDelete rooms key else mapSet rooms key room2,
     some room2, wasEmpty⟩

def getRoom (rooms : Rooms) (key : String) : Option Room :=
  mapGet rooms key

/-! Message dispatcher — src/server/handlers.js.  A handler returns the
new registry state together with the ordered list of (socket id, message)
deliveries it performed. -/

structure ServerState where
  users : Users
  rooms : Rooms
deriving DecidableEq

inductive OutMsg where
  | loginError (message : String)
  | loginOk (peerId : String)
  | createError (message : String)
  | roomCreated (roomKey : String)
  | joinError (message : String)
  | roomJoined (roomKey : String) (peers : List (String × String))
  | peerJoined (peerId username : String)
  | inviteSent (toUsername : String)
  | inviteError (message : String)
  | inviteDeclined (username : String)
  | signalMsg (fromPeerId data : String)
  | peerLeft (peerId username : String)
  | leftRoom
deriving DecidableEq

/-- `send(ws, payload)`: deliver only when the socket is open. -/
def send (ws : Socket) (msg : OutMsg) : List (String × OutMsg) :=
  if ws.readyStateOpen then [(ws.id, msg)] else []

/-- The loop body of `broadcast`: send to every peer except the excluded one. -/
def broadcastList : List (String × RoomPeer) → String → OutMsg → List (String × OutMsg)
  | [], _, _ => []
  | (pid, peer) :: t, ex, msg =>
      (if pid = ex then [] else send peer.socket msg) ++ broadcastList t ex msg

def broadcast (room : Room) (excludePeerId : String) (msg : OutMsg) :
    List (String × OutMsg) :=
  broadcastList room.peers excludePeerId msg

/-- `handleLogin`.  `username = none` embeds an absent or non-string field. -/
def handleLogin (st : ServerState) (ws : Socket) (peerId : String)
    (username : Option String) : ServerState × List (String × OutMsg) :=
  match username with
  | none => (st, send ws (.loginError "Username is required."))
  | some uname =>
    if jsTrim uname = "" then (st, send ws (.loginError "Username is required."))
    else
      let name := (jsTrim uname).take 32
      let result := registerUser st.users peerId name ws
      if !result.ok then
        (st, send ws (.loginError s!"Username \"{name}\" is already taken."))
      else
        ({ st with users := result.users }, send ws (.loginOk peerId))

/-- `handleCreateRoom`; `freshKey`, `now` stand for the RNG and clock reads. -/
def handleCreateRoom (st : ServerState) (ws : Socket) (peerId : String)
    (freshKey : String) (now : Nat) : ServerState × List (String × OutMsg) :=
  match findById st.users peerId with
  | none => (st, send ws (.createError "Not logged in."))
  | some user =>
    match user.roomKey with
    | some _ => (st, send ws (.createError "Already in a room."))
    | none =>
      let result := createRoom st.rooms freshKey now peerId user.username ws
      let users2 := setUserRoom st.users peerId (some result.2.key)
      ({ users := users2, rooms := result.1 }, send ws (.roomCreated result.2.key))

/-- `handleJoinRoom`. -/
def handleJoinRoom (st : ServerState) (ws : Socket) (peerId roomKey : String) :
    ServerState × List (String × OutMsg) :=
  match findById st.users peerId with
  | none => (st, send ws (.joinError "Not logged in."))
  | some user =>
    match user.roomKey with
    | some _ => (st, send ws (.joinError "Already in a room."))
    | none =>
      match joinRoom st.rooms roomKey peerId user.username ws with
      | .error err => (st, send ws (.joinError err.message))
      | .ok (rooms2, room) =>
        let users2 := setUserRoom st.users peerId (some roomKey)
        let existingPeers :=
          (room.peers.filter (fun e => e.1 != peerId)).map
            (fun e => (e.1, e.2.username))
        ({ users := users2, rooms := rooms2 },
         send ws (.roomJoined roomKey existingPeers) ++
           broadcast room peerId (.peerJoined peerId user.username))

/-- `handleAcceptInvite` delegates to `handleJoinRoom` verbatim. -/
def handleAcceptInvite (st : ServerState) (ws : Socket) (peerId roomKey : String) :
    ServerState × List (String × OutMsg) :=
  handleJoinRoom st ws peerId roomKey

/-- `handleSignal`: look up the target by id; if present deliver the
payload with `fromPeerId` set to the sender, else do nothing at all. -/
def handleSignal (st : ServerState) (ws : Socket) (peerId toPeerId data : String) :
    ServerState × List (String × OutMsg) :=
  match findById st.users toPeerId with
  | some target => (st, send target.socket (.signalMsg peerId data))
  | none => (st, [])

/-- `handleLeaveRoom`. -/
def handleLeaveRoom (st : ServerState) (ws : Socket) (peerId : String) :
    ServerState × List (String × OutMsg) :=
  match findById st.users peerId with
  | none => (st, [])
  | some user =>
    match user.roomKey with
    | none => (st, [])
    | some roomKey =>
      let result := leaveRoom st.rooms roomKey peerId
      let users2 := setUserRoom st.users peerId none
      let st2 : ServerState := { users := users2, rooms := result.rooms }
      let bc :=
        match result.room with
        | some room =>
          if room.peers.length > 0 then
            broadcast room peerId (.peerLeft peerId user.username)
          else []
        | none => []
      (st2, bc ++ send ws .leftRoom)

/-! Signaling client reconnection — src/client/signaling.js.  The world
state joins the client fields (`_reconnectAttempts`, `_intentionalClose`,
a pending reconnect timer) with whether an established socket is open.
`closeFired` can only fire on an established socket because the `close`
handler is registered inside the `open` handler; a connect outcome can
only occur for a scheduled attempt.  Invalid events are no-ops. -/

def RECONNECT_DELAY_MS : Nat := 3000

def MAX_RECONNECT_ATTEMPTS : Nat := 5

structure SigWorld where
  reconnectAttempts : Nat
  intentionalClose : Bool
  pendingConnect : Option Nat
  socketOpen : Bool
deriving DecidableEq

inductive SigEvent where
  | closeFired
  | connectSucceeded
  | connectFailed
deriving DecidableEq

inductive SigEmit where
  | closeEv
  | openEv
  | errConnectFailed
  | errConnLost
deriving DecidableEq

/-- `_scheduleReconnect`: at the attempt cap emit `CONN_LOST`, otherwise
count the attempt and schedule a connect after `RECONNECT_DELAY_MS`. -/
def scheduleReconnect (w : SigWorld) : SigWorld × List SigEmit :=
  if w.reconnectAttempts ≥ MAX_RECONNECT_ATTEMPTS then (w, [.errConnLost])
  else
    ({ w with reconnectAttempts := w.reconnectAttempts + 1,
              pendingConnect := some RECONNECT_DELAY_MS }, [])

/-- One event of the reconnection machine.  On close: emit `close`, then
reconnect unless the close was intentional.  On a successful connect the
`open` handler resets the attempt counter; on a failed connect the
`.catch` in `_scheduleReconnect` emits `CONNECT_FAILED` and nothing more
is scheduled (the failed socket never ran the `open` handler, so it has
no `close` handler). -/
def sigStep (w : SigWorld) : SigEvent → SigWorld × List SigEmit
  | .closeFired =>
    if w.socketOpen then
      let w1 := { w with socketOpen := false }
      if w1.intentionalClose then (w1, [.closeEv])
      else
        let r := scheduleReconnect w1
        (r.1, .closeEv :: r.2)
    else (w, [])
  | .connectSucceeded =>
    match w.pendingConnect with
    | some _ =>
      ({ w with reconnectAttempts := 0, pendingConnect := none, socketOpen := true },
       [.openEv])
    | none => (w, [])
  | .connectFailed =>
    match w.pendingConnect with
    | some _ => ({ w with pendingConnect := none }, [.errConnectFailed])
    | none => (w, [])

def sigRun (w : SigWorld) : List SigEvent → SigWorld × List SigEmit
  | [] => (w, [])
  | e :: t =>
    let r1 := sigStep w e
    let r2 := sigRun r1.1 t
    (r2.1, r1.2 ++ r2.2)

/-- An established, never-reconnected connection: attempt counter 0, no
intentional close, no pending attempt, socket open. -/
def sigInit : SigWorld := ⟨0, false, none, true⟩

/-! Session request/response helper — Session._waitFor in
src/client/session.js. -/

/-- A JS error value as far as the protocol observes it: its class
(`name`), message and optional machine-readable code. -/
structure JsError where
  name : String
  message : String
  code : Option String
deriving DecidableEq

/-- `new Error(message)`. -/
def mkJsError (message : String) : JsError := ⟨"Error", message, none⟩

/-- `new SignalingError(message, code)` — src/utils/errors.js sets
`name = "SignalingError"` and carries the code. -/
def mkSignalingError (message code : String) : JsError :=
  ⟨"SignalingError", message, some code⟩

/-- The default `timeoutMs` of `_waitFor` (all call sites use it). -/
def WAIT_TIMEOUT_MS : Nat := 10000

inductive WaitResult where
  | resolved (msg : String)
  | rejected (e : JsError)
deriving DecidableEq

/-- Listener/timer registration flags plus the promise outcome.
`completions` counts settle attempts so exactly-once completion is a
provable statement rather than an assumption. -/
structure WaitState where
  successOn : Bool
  errorOn : Bool
  timerOn : Bool
  result : Option WaitResult
  completions : Nat
deriving DecidableEq

inductive WaitEvent where
  | emitSuccess (msg : String)
  | emitError (msg : String)
  | timerFires
deriving DecidableEq

/-- `cleanup()` followed by settling the promise: clear the timer, remove
both one-shot listeners, record the outcome. -/
def waitCleanupFire (s : WaitState) (r : WaitResult) : WaitState :=
  ⟨false, false, false, some r, s.completions + 1⟩

/-- One event hitting `_waitFor`'s listeners: each handler runs only while
its registration is live. -/
def waitStep (successEvent : String) (s : WaitState) : WaitEvent → WaitState
  | .emitSuccess m => if s.successOn then waitCleanupFire s (.resolved m) else s
  | .emitError m => if s.errorOn then waitCleanupFire s (.rejected (mkJsError m)) else s
  | .timerFires =>
    if s.timerOn then
      waitCleanupFire s
        (.rejected (mkJsError
          ("Server did not respond in time (waiting for " ++ successEvent ++ ")")))
    else s

/-- Right after `_waitFor` registered its listeners and started the timer. -/
def waitInit : WaitState := ⟨true, true, true, none, 0⟩

def runWait (successEvent : String) (events : List WaitEvent) : WaitState :=
  events.foldl (waitStep successEvent) waitInit

/-! Session participants and mute state — src/client/session.js.  The
participant map is keyed by `this._peerId`, which is `null` until
`login-ok` arrives, so keys are `Option String` exactly as a JS `Map`
would hold them. -/

structure Participant where
  peerId : Option String
  username : String
  isSpeaking : Bool
  isMuted : Bool
  isSelf : Bool
deriving DecidableEq

structure SessionState where
  peerId : Option String
  username : String
  roomKey : Option String
  participants : List (Option String × Participant)
  audioMuted : Bool
deriving DecidableEq

/-- `_upsertParticipant`: overwrite the entry with fresh
`isSpeaking = false`, `isMuted = false` flags and emit
`participant-update` (the returned Bool). -/
def upsertParticipant (s : SessionState) (peerId : Option String)
    (username : String) (isSelf : Bool) : SessionState × Bool :=
  ({ s with participants :=
      mapSet s.participants peerId ⟨peerId, username, false, false, isSelf⟩ },
   true)

/-- `setMuted`: always toggle the audio adapter; update the self
participant and emit `participant-update` only when it exists. -/
def setMuted (s : SessionState) (muted : Bool) : SessionState × Bool :=
  let s1 := { s with audioMuted := muted }
  match mapGet s1.participants s1.peerId with
  | none => (s1, false)
  | some self =>
    let self2 : Participant := { self with isMuted := muted }
    ({ s1 with participants := mapSet s1.participants s1.peerId self2 }, true)

/-- The `isMuted` getter: it reads the audio adapter, not the participant. -/
def sessionIsMuted (s : SessionState) : Bool := s.audioMuted

/-- The `room-created` handler: record the key and upsert self. -/
def onRoomCreated (s : SessionState) (roomKey : String) : SessionState × Bool :=
  let s1 := { s with roomKey := some roomKey }
  upsertParticipant s1 s1.peerId s1.username true

/-- The `room-joined` handler: record the key, upsert self, then upsert
every existing peer (peer-connection creation is outside this model). -/
def onRoomJoined (s : SessionState) (roomKey : String)
    (peers : List (String × String)) : SessionState :=
  let s1 := { s with roomKey := some roomKey }
  let s2 := (upsertParticipant s1 s1.peerId s1.username true).1
  peers.foldl (fun acc p => (upsertParticipant acc (some p.1) p.2 false).1) s2

/-! Specification predicates and drivers. -/

/-- The registry invariant of §4.3: every stored room has members. -/
def roomsNonEmpty (rooms : Rooms) : Prop :=
  ∀ e ∈ rooms, e.2.peers ≠ []

/-- Leave a room repeatedly, one peer at a time, collecting each
`wasEmpty` flag in order. -/
def leaveAll (rooms : Rooms) (key : String) : List String → Rooms × List Bool
  | [] => (rooms, [])
  | p :: t =>
    let r := leaveRoom rooms key p
    let rest := leaveAll r.rooms key t
    (rest.1, r.wasEmpty :: rest.2)

/-- The §4.2 invariant: no two registered users share a username modulo
case. -/
def usernamesDistinctModCase (users : Users) : Prop :=
  (users.map (fun e => jsToLower e.2.username)).Nodup

/-- Reachability invariant of the reconnection machine: the attempt
counter never exceeds 1, and it is 0 whenever a socket is open. -/
def sigInv (w : SigWorld) : Prop :=
  w.reconnectAttempts ≤ 1 ∧ (w.socketOpen = true → w.reconnectAttempts = 0)

/-- The `_waitFor` promise either has not settled (all registrations
live) or has settled exactly once (all registrations removed). -/
def waitInv (s : WaitState) : Prop :=
  (s.completions = 0 ∧ s.successOn = true ∧ s.errorOn = true ∧ s.timerOn = true) ∨
  (s.completions = 1 ∧ s.successOn = false ∧ s.errorOn = false ∧ s.timerOn = false)

/-! Supporting lemmas. -/

theorem mapGet_mapSet_self {κ β : Type} [DecidableEq κ]
    (l : List (κ × β)) (k : κ) (v : β) : mapGet (mapSet l k v) k = some v := by
  induction l with
  | nil => simp [mapSet, mapGet]
  | cons e t ih =>
    by_cases h : e.1 = k
    · simp [mapSet, h, mapGet]
    · simp [mapSet, h, mapGet, ih]

theorem mapGet_mapSet_ne {κ β : Type} [DecidableEq κ]
    (l : List (κ × β)) (k k' : κ) (v : β) (h : k' ≠ k) :
    mapGet (mapSet l k' v) k = mapGet l k := by
  induction l with
  | nil => simp [mapSet, mapGet, h]
  | cons e t ih =>
    by_cases he : e.1 = k'
    · simp [mapSet, he, mapGet, h, Ne.symm h]
    · simp only [mapSet, if_neg he, mapGet]
      by_cases hk : e.1 = k
      · simp [hk]
      · simp [hk, ih]

theorem not_mem_keys_of_mapGet_eq_none {κ β : Type} [DecidableEq κ]
    {l : List (κ × β)} {k : κ} (h : mapGet l k = none) : k ∉ l.map Prod.fst := by
  induction l with
  | nil => simp
  | cons e t ih =>
    simp only [mapGet] at h
    by_cases he : e.1 = k
    · simp [he] at h
    · simp only [if_neg he] at h
      simp [ih h, Ne.symm he]

theorem mapGet_eq_none_of_not_mem_keys {κ β : Type} [DecidableEq κ]
    {l : List (κ × β)} {k : κ} (h : k ∉ l.map Prod.fst) : mapGet l k = none := by
  induction l with
  | nil => rfl
  | cons e t ih =>
    obtain ⟨k1, v1⟩ := e
    simp only [List.map_cons, List.mem_cons, not_or] at h
    have hne : k1 ≠ k := fun he => h.1 he.symm
    simp only [mapGet, if_neg hne]
    exact ih h.2

theorem mapSet_eq_append_of_fresh {κ β : Type} [DecidableEq κ]
    {l : List (κ × β)} {k : κ} (v : β) (h : mapGet l k = none) :
    mapSet l k v = l ++ [(k, v)] := by
  induction l with
  | nil => rfl
  | cons e t ih =>
    simp only [mapGet] at h
    by_cases he : e.1 = k
    · simp [he] at h
    · simp only [if_neg he] at h
      simp [mapSet, he, ih h]

theorem mem_mapSet {κ β : Type} [DecidableEq κ]
    {l : List (κ × β)} {k : κ} {v : β} :
    ∀ e ∈ mapSet l k v, e ∈ l ∨ e = (k, v) := by
  induction l with
  | nil => simp [mapSet]
  | cons hd t ih =>
    intro e he
    by_cases h : hd.1 = k
    · simp only [mapSet, if_pos h, List.mem_cons] at he
      rcases he with he | he
      · right; exact he
      · left; exact List.mem_cons_of_mem _ he
    · simp only [mapSet, if_neg h, List.mem_cons] at he
      rcases he with he | he
      · left; rw [he]; exact List.mem_cons_self _ _
      · rcases ih e he with h2 | h2
        · left; exact List.mem_cons_of_mem _ h2
        · right; exact h2

theorem mapSet_ne_nil {κ β : Type} [DecidableEq κ]
    (l : List (κ × β)) (k : κ) (v : β) : mapSet l k v ≠ [] := by
  cases l with
  | nil => simp [mapSet]
  | cons e t =>
    by_cases h : e.1 = k <;> simp [mapSet, h]

theorem mem_mapDelete {κ β : Type} [DecidableEq κ]
    {l : List (κ × β)} {k : κ} : ∀ e ∈ mapDelete l k, e ∈ l := by
  induction l with
  | nil => simp [mapDelete]
  | cons hd t ih =>
    intro e he
    by_cases h : hd.1 = k
    · simp only [mapDelete, if_pos h] at he
      exact List.mem_cons_of_mem _ he
    · simp only [mapDelete, if_neg h, List.mem_cons] at he
      rcases he with he | he
      · rw [he]; exact List.mem_cons_self _ _
      · exact List.mem_cons_of_mem _ (ih e he)

theorem keys_mapDelete {κ β : Type} [DecidableEq κ]
    (l : List (κ × β)) (k : κ) :
    (mapDelete l k).map Prod.fst = (l.map Prod.fst).erase k := by
  induction l with
  | nil => rfl
  | cons e t ih =>
    by_cases h : e.1 = k
    · simp [mapDelete, h, List.erase_cons_head]
    · rw [List.map_cons, List.erase_cons_tail]
      · simp [mapDelete, h, ih]
      · simp [h]

theorem mapGet_mapDelete_self {κ β : Type} [DecidableEq κ]
    {l : List (κ × β)} {k : κ} (h : (l.map Prod.fst).Nodup) :
    mapGet (mapDelete l k) k = none := by
  apply mapGet_eq_none_of_not_mem_keys
  rw [keys_mapDelete]
  exact fun hm => (List.Nodup.not_mem_erase h) hm

theorem keys_mapSet_subset {κ β : Type} [DecidableEq κ]
    {l : List (κ × β)} {k : κ} {v : β} :
    ∀ x ∈ (mapSet l k v).map Prod.fst, x ∈ l.map Prod.fst ∨ x = k := by
  intro x hx
  rcases List.mem_map.mp hx with ⟨e, he, hex⟩
  rcases mem_mapSet e he with h2 | h2
  · left; exact hex ▸ List.mem_map_of_mem _ h2
  · right; rw [← hex, h2]

theorem keys_mapSet_nodup {κ β : Type} [DecidableEq κ]
    {l : List (κ × β)} {k : κ} {v : β} (h : (l.map Prod.fst).Nodup) :
    ((mapSet l k v).map Prod.fst).Nodup := by
  induction l with
  | nil => simp [mapSet]
  | cons e t ih =>
    obtain ⟨k1, v1⟩ := e
    simp only [List.map_cons, List.nodup_cons] at h
    by_cases he : k1 = k
    · subst he
      have hset : mapSet ((k1, v1) :: t) k1 v = (k1, v) :: t := by
        simp [mapSet]
      rw [hset, List.map_cons, List.nodup_cons]
      exact h
    · simp only [mapSet, if_neg he, List.map_cons, List.nodup_cons]
      refine ⟨fun hm => ?_, ih h.2⟩
      rcases keys_mapSet_subset _ hm with h2 | h2
      · exact h.1 h2
      · exact he h2

theorem mapDelete_keys_ne {κ β : Type} [DecidableEq κ]
    {l : List (κ × β)} {k : κ} (h : (l.map Prod.fst).Nodup) :
    ∀ e ∈ mapDelete l k, e.1 ≠ k := by
  induction l with
  | nil => simp [mapDelete]
  | cons hd t ih =>
    obtain ⟨k1, v1⟩ := hd
    simp only [List.map_cons, List.nodup_cons] at h
    intro e he
    by_cases hh : k1 = k
    · simp only [mapDelete, if_pos hh] at he
      intro hek
      apply h.1
      rw [hh, ← hek]
      exact List.mem_map_of_mem Prod.fst he
    · simp only [mapDelete, if_neg hh, List.mem_cons] at he
      rcases he with he | he
      · rw [he]; exact hh
      · exact ih h.2 e he

theorem broadcastList_append (l1 l2 : List (String × RoomPeer)) (ex : String)
    (msg : OutMsg) :
    broadcastList (l1 ++ l2) ex msg =
      broadcastList l1 ex msg ++ broadcastList l2 ex msg := by
  induction l1 with
  | nil => rfl
  | cons e t ih => simp [broadcastList, ih]

theorem broadcastList_all_open (l : List (String × RoomPeer)) (ex : String)
    (msg : OutMsg) (hne : ∀ e ∈ l, e.1 ≠ ex)
    (hopen : ∀ e ∈ l, e.2.socket.readyStateOpen = true) :
    broadcastList l ex msg = l.map (fun e => (e.2.socket.id, msg)) := by
  induction l with
  | nil => rfl
  | cons e t ih =>
    have h1 : e.1 ≠ ex := hne e (List.mem_cons_self _ _)
    have h2 : e.2.socket.readyStateOpen = true :=
      hopen e (List.mem_cons_self _ _)
    simp only [broadcastList, if_neg h1, send, if_pos h2, List.map_cons]
    rw [ih (fun x hx => hne x (List.mem_cons_of_mem _ hx))
      (fun x hx => hopen x (List.mem_cons_of_mem _ hx))]
    rfl

theorem charToNat_ofNat_valid (n : Nat) (hv : n.isValidChar) :
    (Char.ofNat n).toNat = n := by
  unfold Char.ofNat
  rw [dif_pos hv]
  simp [Char.ofNatAux, Char.toNat, UInt32.ofNatCore, UInt32.toNat, BitVec.toNat_ofNatLt]

theorem char_toNat_lower_bounds {c : Char} (h : 'a' ≤ c ∧ c ≤ 'z') :
    97 ≤ c.toNat ∧ c.toNat ≤ 122 := by
  obtain ⟨h1, h2⟩ := h
  have hb1 : 97 ≤ c.toNat := by simp [Char.le_def] at h1; exact h1
  have hb2 : c.toNat ≤ 122 := by simp [Char.le_def] at h2; exact h2
  exact ⟨hb1, hb2⟩

theorem jsCharUpper_eq_of_lower {c : Char} (h : 'a' ≤ c ∧ c ≤ 'z') :
    jsCharUpper c = Char.ofNat (c.toNat - 32) := by
  unfold jsCharUpper
  rw [if_pos h]

theorem jsCharUpper_eq_of_not_lower {c : Char} (h : ¬('a' ≤ c ∧ c ≤ 'z')) :
    jsCharUpper c = c := by
  unfold jsCharUpper
  rw [if_neg h]

theorem jsCharUpper_toNat_of_lower {c : Char} (h : 'a' ≤ c ∧ c ≤ 'z') :
    (jsCharUpper c).toNat = c.toNat - 32 := by
  obtain ⟨hb1, hb2⟩ := char_toNat_lower_bounds h
  rw [jsCharUpper_eq_of_lower h]
  exact charToNat_ofNat_valid _ (Or.inl (by omega))

theorem not_lower_of_toNat_lt {c : Char} (h : c.toNat < 97) :
    ¬('a' ≤ c ∧ c ≤ 'z') := by
  intro h2
  obtain ⟨hb1, _⟩ := char_toNat_lower_bounds h2
  omega

theorem jsCharUpper_idem (c : Char) :
    jsCharUpper (jsCharUpper c) = jsCharUpper c := by
  by_cases h : 'a' ≤ c ∧ c ≤ 'z'
  · obtain ⟨hb1, hb2⟩ := char_toNat_lower_bounds h
    have ht : (jsCharUpper c).toNat = c.toNat - 32 := jsCharUpper_toNat_of_lower h
    exact jsCharUpper_eq_of_not_lower (not_lower_of_toNat_lt (by omega))
  · rw [jsCharUpper_eq_of_not_lower h, jsCharUpper_eq_of_not_lower h]

theorem isJsWhitespace_eq_false_of_ge {c : Char} (h : 65 ≤ c.toNat) :
    isJsWhitespace c = false := by
  unfold isJsWhitespace
  have e1 : c ≠ ' ' := by intro he; rw [he] at h; exact absurd h (by decide)
  have e2 : c ≠ '\t' := by intro he; rw [he] at h; exact absurd h (by decide)
  have e3 : c ≠ '\n' := by intro he; rw [he] at h; exact absurd h (by decide)
  have e4 : c ≠ '\r' := by intro he; rw [he] at h; exact absurd h (by decide)
  have e5 : c ≠ '\x0b' := by intro he; rw [he] at h; exact absurd h (by decide)
  have e6 : c ≠ '\x0c' := by intro he; rw [he] at h; exact absurd h (by decide)
  simp [e1, e2, e3, e4, e5, e6]

theorem isJsWhitespace_jsCharUpper (c : Char) :
    isJsWhitespace (jsCharUpper c) = isJsWhitespace c := by
  by_cases h : 'a' ≤ c ∧ c ≤ 'z'
  · obtain ⟨hb1, hb2⟩ := char_toNat_lower_bounds h
    have ht : (jsCharUpper c).toNat = c.toNat - 32 := jsCharUpper_toNat_of_lower h
    rw [isJsWhitespace_eq_false_of_ge (c := jsCharUpper c) (by omega),
      isJsWhitespace_eq_false_of_ge (by omega)]
  · rw [jsCharUpper_eq_of_not_lower h]

theorem map_jsCharUpper_idem (l : List Char) :
    (l.map jsCharUpper).map jsCharUpper = l.map jsCharUpper := by
  induction l with
  | nil => rfl
  | cons c t ih => simp [jsCharUpper_idem, ih]

theorem dropWhile_ws_map_jsCharUpper (l : List Char) :
    (l.map jsCharUpper).dropWhile isJsWhitespace =
      (l.dropWhile isJsWhitespace).map jsCharUpper := by
  induction l with
  | nil => rfl
  | cons c t ih =>
    simp only [List.map_cons, List.dropWhile_cons, isJsWhitespace_jsCharUpper]
    cases h : isJsWhitespace c with
    | false => simp [h]
    | true => simp [h, ih]

theorem jsTrimList_map_jsCharUpper (l : List Char) :
    jsTrimList (l.map jsCharUpper) = (jsTrimList l).map jsCharUpper := by
  unfold jsTrimList
  rw [dropWhile_ws_map_jsCharUpper, ← List.map_reverse,
    dropWhile_ws_map_jsCharUpper, ← List.map_reverse]

/-! Claims C5 and C9 — signal relaying. -/

/-- C5: an inbound `signal{toPeerId, data}` from connection A is relayed
to a registered target B as exactly one `signal{fromPeerId: A, data}`
with the data passed through unchanged and nothing sent to anyone else,
and the registries are untouched; when B is not registered nothing is
delivered and no error reply is sent to A. -/
theorem handleSignal_spec (st : ServerState) (ws : Socket)
    (peerId toPeerId data : String) :
    (∀ target, findById st.users toPeerId = some target →
      target.socket.readyStateOpen = true →
      handleSignal st ws peerId toPeerId data =
        (st, [(target.socket.id, OutMsg.signalMsg peerId data)])) ∧
    (findById st.users toPeerId = none →
      handleSignal st ws peerId toPeerId data = (st, [])) := by
  constructor
  · intro target ht hopen
    unfold handleSignal
    rw [ht]
    simp [send, hopen]
  · intro hn
    unfold handleSignal
    rw [hn]

theorem handleSignal_spec_witness :
    handleSignal ⟨[("B", ⟨"B", "bob", ⟨"sockB", true⟩, none⟩)], []⟩
        ⟨"sockA", true⟩ "A" "B" "offer-sdp" =
      (⟨[("B", ⟨"B", "bob", ⟨"sockB", true⟩, none⟩)], []⟩,
       [("sockB", OutMsg.signalMsg "A" "offer-sdp")]) ∧
    handleSignal ⟨[("B", ⟨"B", "bob", ⟨"sockB", true⟩, none⟩)], []⟩
        ⟨"sockA", true⟩ "A" "ghost" "offer-sdp" =
      (⟨[("B", ⟨"B", "bob", ⟨"sockB", true⟩, none⟩)], []⟩, []) := by
  constructor
  · exact (handleSignal_spec ⟨[("B", ⟨"B", "bob", ⟨"sockB", true⟩, none⟩)], []⟩
      ⟨"sockA", true⟩ "A" "B" "offer-sdp").1
      ⟨"B", "bob", ⟨"sockB", true⟩, none⟩ (by decide) rfl
  · exact (handleSignal_spec ⟨[("B", ⟨"B", "bob", ⟨"sockB", true⟩, none⟩)], []⟩
      ⟨"sockA", true⟩ "A" "ghost" "offer-sdp").2 (by decide)

/-- C9 (implicit): relaying a `signal` has no authentication or
membership precondition — delivery depends only on the target peerId
being registered.  The sender may be completely unknown to the user
registry, and the room registry can be swapped for any other without
changing the outcome, so any connection can deliver signal frames to any
online user. -/
theorem handleSignal_no_auth_required (st : ServerState) (ws : Socket)
    (senderPeerId toPeerId data : String) (target : OnlineUser)
    (hSender : findById st.users senderPeerId = none)
    (hTarget : findById st.users toPeerId = some target)
    (hOpen : target.socket.readyStateOpen = true) :
    handleSignal st ws senderPeerId toPeerId data =
      (st, [(target.socket.id, OutMsg.signalMsg senderPeerId data)]) ∧
    (∀ rooms2 : Rooms,
      handleSignal ⟨st.users, rooms2⟩ ws senderPeerId toPeerId data =
        (⟨st.users, rooms2⟩,
         [(target.socket.id, OutMsg.signalMsg senderPeerId data)])) := by
  constructor
  · unfold handleSignal
    rw [hTarget]
    simp [send, hOpen]
  · intro rooms2
    unfold handleSignal
    rw [show (⟨st.users, rooms2⟩ : ServerState).users = st.users from rfl, hTarget]
    simp [send, hOpen]

theorem handleSignal_no_auth_required_witness :
    findById ([("B", ⟨"B", "bob", ⟨"sockB", true⟩, none⟩)] : Users) "A" = none ∧
    handleSignal ⟨[("B", ⟨"B", "bob", ⟨"sockB", true⟩, none⟩)], []⟩
        ⟨"sockA", true⟩ "A" "B" "candidate" =
      (⟨[("B", ⟨"B", "bob", ⟨"sockB", true⟩, none⟩)], []⟩,
       [("sockB", OutMsg.signalMsg "A" "candidate")]) :=
  ⟨by decide,
   (handleSignal_no_auth_required ⟨[("B", ⟨"B", "bob", ⟨"sockB", true⟩, none⟩)], []⟩
     ⟨"sockA", true⟩ "A" "B" "candidate" ⟨"B", "bob", ⟨"sockB", true⟩, none⟩
     (by decide) (by decide) rfl).1⟩

/-! Claim C2 — leave-room. -/

/-- C2 counterexample: a logged-in user who is not in any room sends
`leave-room`; the dispatcher returns without sending anything — in
particular no `left-room` reply — contradicting the claimed idempotent
reply. -/
theorem handleLeaveRoom_not_in_room_ce :
    handleLeaveRoom ⟨[("p1", ⟨"p1", "alice", ⟨"s1", true⟩, none⟩)], []⟩
        ⟨"s1", true⟩ "p1" =
      (⟨[("p1", ⟨"p1", "alice", ⟨"s1", true⟩, none⟩)], []⟩, []) ∧
    ("s1", OutMsg.leftRoom) ∉
      (handleLeaveRoom ⟨[("p1", ⟨"p1", "alice", ⟨"s1", true⟩, none⟩)], []⟩
        ⟨"s1", true⟩ "p1").2 := by
  constructor
  · decide
  · decide

/-- C2 (amended): when the sender is in a room, `leave-room` removes
them, deletes the room exactly when it empties, broadcasts
`peer-left{peerId, username}` to every remaining member and then replies
`left-room` to the leaver; when the sender is logged in but not in any
room the dispatcher does nothing at all — it sends no `left-room` reply
(and changes no registry state). -/
theorem handleLeaveRoom_spec (st : ServerState) (ws : Socket) (peerId : String)
    (u : OnlineUser) (hu : findById st.users peerId = some u) :
    (u.roomKey = none → handleLeaveRoom st ws peerId = (st, [])) ∧
    (∀ k r, u.roomKey = some k → getRoom st.rooms k = some r →
      (st.rooms.map Prod.fst).Nodup → (r.peers.map Prod.fst).Nodup →
      ws.readyStateOpen = true →
      (∀ e ∈ mapDelete r.peers peerId, e.2.socket.readyStateOpen = true) →
      getRoom (handleLeaveRoom st ws peerId).1.rooms k =
        (if (mapDelete r.peers peerId).isEmpty then none
         else some ({ r with peers := mapDelete r.peers peerId })) ∧
      findById (handleLeaveRoom st ws peerId).1.users peerId =
        some ({ u with roomKey := none }) ∧
      (handleLeaveRoom st ws peerId).2 =
        (mapDelete r.peers peerId).map
          (fun e => (e.2.socket.id, OutMsg.peerLeft peerId u.username)) ++
          [(ws.id, OutMsg.leftRoom)]) := by
  constructor
  · intro hn
    simp [handleLeaveRoom, hu, hn]
  · intro k r hk hr hnodupRooms hnodupPeers hws hopen
    have hres : handleLeaveRoom st ws peerId =
        ({ users := setUserRoom st.users peerId none,
           rooms := (leaveRoom st.rooms k peerId).rooms },
         (if (mapDelete r.peers peerId).length > 0 then
            broadcast ({ r with peers := mapDelete r.peers peerId }) peerId
              (.peerLeft peerId u.username)
          else []) ++ send ws .leftRoom) := by
      simp only [handleLeaveRoom, hu, hk, leaveRoom, getRoom] at *
      rw [hr]
    have husers : setUserRoom st.users peerId none =
        mapSet st.users peerId ({ u with roomKey := none }) := by
      simp [setUserRoom, findById] at hu
      simp [setUserRoom, hu]
    have hbc : broadcast ({ r with peers := mapDelete r.peers peerId }) peerId
        (.peerLeft peerId u.username) =
        (mapDelete r.peers peerId).map
          (fun e => (e.2.socket.id, OutMsg.peerLeft peerId u.username)) := by
      unfold broadcast
      exact broadcastList_all_open _ _ _ (mapDelete_keys_ne hnodupPeers) hopen
    have hleave : (leaveRoom st.rooms k peerId).rooms =
        if (mapDelete r.peers peerId).isEmpty then mapDelete st.rooms k
        else mapSet st.rooms k ({ r with peers := mapDelete r.peers peerId }) := by
      simp only [leaveRoom, getRoom] at *
      rw [hr]
    refine ⟨?_, ?_, ?_⟩
    · rw [hres]
      show getRoom (leaveRoom st.rooms k peerId).rooms k = _
      rw [hleave]
      by_cases hE : (mapDelete r.peers peerId).isEmpty
      · rw [if_pos hE, if_pos hE]
        exact mapGet_mapDelete_self hnodupRooms
      · rw [if_neg hE, if_neg hE]
        exact mapGet_mapSet_self _ _ _
    · rw [hres]
      show findById (setUserRoom st.users peerId none) peerId = _
      rw [husers]
      exact mapGet_mapSet_self _ _ _
    · rw [hres]
      show (if (mapDelete r.peers peerId).length > 0 then _ else []) ++
        send ws .leftRoom = _
      by_cases hE : (mapDelete r.peers peerId).isEmpty
      · have hnil : mapDelete r.peers peerId = [] := List.isEmpty_iff.mp hE
        rw [hnil]
        simp [send, hws]
      · have hpos : (mapDelete r.peers peerId).length > 0 := by
          cases hd : mapDelete r.peers peerId with
          | nil => rw [hd] at hE; simp at hE
          | cons a t => simp
        rw [if_pos hpos, hbc]
        simp [send, hws]

theorem handleLeaveRoom_spec_witness :
    (handleLeaveRoom
      ⟨[("A", ⟨"A", "alice", ⟨"sA", true⟩, some "K"⟩),
        ("B", ⟨"B", "bob", ⟨"sB", true⟩, some "K"⟩)],
       [("K", ⟨"K", "A",
          [("A", ⟨"alice", ⟨"sA", true⟩⟩), ("B", ⟨"bob", ⟨"sB", true⟩⟩)], 0⟩)]⟩
      ⟨"sB", true⟩ "B").2 =
      [("sA", OutMsg.peerLeft "B" "bob"), ("sB", OutMsg.leftRoom)] := by
  have h := (handleLeaveRoom_spec
    ⟨[("A", ⟨"A", "alice", ⟨"sA", true⟩, some "K"⟩),
      ("B", ⟨"B", "bob", ⟨"sB", true⟩, some "K"⟩)],
     [("K", ⟨"K", "A",
        [("A", ⟨"alice", ⟨"sA", true⟩⟩), ("B", ⟨"bob", ⟨"sB", true⟩⟩)], 0⟩)]⟩
    ⟨"sB", true⟩ "B" ⟨"B", "bob", ⟨"sB", true⟩, some "K"⟩ (by decide)).2
    "K" ⟨"K", "A",
      [("A", ⟨"alice", ⟨"sA", true⟩⟩), ("B", ⟨"bob", ⟨"sB", true⟩⟩)], 0⟩
    rfl (by decide) (by decide) (by decide) rfl (by decide)
  rw [h.2.2]
  decide

/-! Claim C3 — join-room reply ordering and membership snapshot. -/

/-- C3: an accepted `join-room` from a logged-in user not in a room,
naming an existing room the joiner is not already a member of, sends the
joiner `room-joined{roomKey, peers}` whose peers list is exactly the
membership at join time excluding the joiner, and this reply is the head
of the delivery list — strictly before every `peer-joined{peerId,
username}` broadcast to the other members; `accept-invite` is handled by
the identical code path. -/
theorem handleJoinRoom_spec (st : ServerState) (ws : Socket)
    (peerId roomKey : String) (u : OnlineUser) (r : Room)
    (hu : findById st.users peerId = some u)
    (hnr : u.roomKey = none)
    (hr : getRoom st.rooms roomKey = some r)
    (hnp : mapGet r.peers peerId = none)
    (hws : ws.readyStateOpen = true)
    (hopen : ∀ e ∈ r.peers, e.2.socket.readyStateOpen = true) :
    handleJoinRoom st ws peerId roomKey =
      ({ users := setUserRoom st.users peerId (some roomKey),
         rooms := mapSet st.rooms roomKey
           ({ r with peers := r.peers ++ [(peerId, ⟨u.username, ws⟩)] }) },
       (ws.id, OutMsg.roomJoined roomKey
          (r.peers.map (fun e => (e.1, e.2.username)))) ::
         r.peers.map (fun e => (e.2.socket.id, OutMsg.peerJoined peerId u.username))) ∧
    (∀ st2 ws2 p2 k2, handleAcceptInvite st2 ws2 p2 k2 = handleJoinRoom st2 ws2 p2 k2) := by
  refine ⟨?_, fun st2 ws2 p2 k2 => rfl⟩
  have hkeys : ∀ e ∈ r.peers, e.1 ≠ peerId := by
    intro e he hep
    exact (not_mem_keys_of_mapGet_eq_none hnp) (hep ▸ List.mem_map_of_mem Prod.fst he)
  have hr' : mapGet st.rooms roomKey = some r := hr
  have hjoin : joinRoom st.rooms roomKey peerId u.username ws =
      .ok (mapSet st.rooms roomKey
            ({ r with peers := r.peers ++ [(peerId, ⟨u.username, ws⟩)] }),
           { r with peers := r.peers ++ [(peerId, ⟨u.username, ws⟩)] }) := by
    simp only [joinRoom, hr', hnp, Option.isSome_none, Bool.false_eq_true, if_false]
    rw [mapSet_eq_append_of_fresh _ hnp]
  have hfilter : (r.peers ++ [(peerId, (⟨u.username, ws⟩ : RoomPeer))]).filter
      (fun e => e.1 != peerId) = r.peers := by
    rw [List.filter_append]
    have h1 : r.peers.filter (fun e => e.1 != peerId) = r.peers :=
      List.filter_eq_self.mpr (fun e he => by
        simpa [bne_iff_ne] using hkeys e he)
    have h2 : ([(peerId, (⟨u.username, ws⟩ : RoomPeer))] : List (String × RoomPeer)).filter
        (fun e => e.1 != peerId) = [] := by simp
    rw [h1, h2, List.append_nil]
  have hbc : broadcast ({ r with peers := r.peers ++ [(peerId, ⟨u.username, ws⟩)] })
      peerId (.peerJoined peerId u.username) =
      r.peers.map (fun e => (e.2.socket.id, OutMsg.peerJoined peerId u.username)) := by
    unfold broadcast
    show broadcastList (r.peers ++ [(peerId, ⟨u.username, ws⟩)]) peerId _ = _
    rw [broadcastList_append,
      broadcastList_all_open r.peers _ _ hkeys hopen]
    simp [broadcastList]
  simp only [handleJoinRoom, hu, hnr, hjoin, hfilter]
  rw [hbc]
  simp [send, hws]

theorem handleJoinRoom_spec_witness :
    (handleJoinRoom
      ⟨[("A", ⟨"A", "alice", ⟨"sA", true⟩, some "K"⟩),
        ("B", ⟨"B", "bob", ⟨"sB", true⟩, none⟩)],
       [("K", ⟨"K", "A", [("A", ⟨"alice", ⟨"sA", true⟩⟩)], 0⟩)]⟩
      ⟨"sB", true⟩ "B" "K").2 =
      [("sB", OutMsg.roomJoined "K" [("A", "alice")]),
       ("sA", OutMsg.peerJoined "B" "bob")] := by
  have h := (handleJoinRoom_spec
    ⟨[("A", ⟨"A", "alice", ⟨"sA", true⟩, some "K"⟩),
      ("B", ⟨"B", "bob", ⟨"sB", true⟩, none⟩)],
     [("K", ⟨"K", "A", [("A", ⟨"alice", ⟨"sA", true⟩⟩)], 0⟩)]⟩
    ⟨"sB", true⟩ "B" "K" ⟨"B", "bob", ⟨"sB", true⟩, none⟩
    ⟨"K", "A", [("A", ⟨"alice", ⟨"sA", true⟩⟩)], 0⟩
    (by decide) rfl rfl (by decide) rfl (by decide)).1
  rw [h]
  decide

/-! Claim C4 — login and username uniqueness. -/

theorem findByUsername_eq_none_forall {users : Users} {name : String}
    (h : findByUsername users name = none) :
    ∀ e ∈ users, jsToLower e.2.username ≠ jsToLower name := by
  intro e he
  unfold findByUsername at h
  have h2 := List.find?_eq_none.mp h e.2 (List.mem_map_of_mem Prod.snd he)
  simpa using h2

theorem nodupLower_mapSet {users : Users} {p : String} {v : OnlineUser}
    (hfresh : ∀ e ∈ users, jsToLower e.2.username ≠ jsToLower v.username)
    (h : usernamesDistinctModCase users) :
    usernamesDistinctModCase (mapSet users p v) := by
  unfold usernamesDistinctModCase at *
  induction users with
  | nil => simp [mapSet]
  | cons e t ih =>
    obtain ⟨k1, u1⟩ := e
    simp only [List.map_cons, List.nodup_cons] at h
    by_cases he : k1 = p
    · subst he
      have hset : mapSet ((k1, u1) :: t) k1 v = (k1, v) :: t := by simp [mapSet]
      rw [hset, List.map_cons, List.nodup_cons]
      refine ⟨fun hm => ?_, h.2⟩
      rcases List.mem_map.mp hm with ⟨e2, he2, heq⟩
      exact hfresh e2 (List.mem_cons_of_mem _ he2) heq
    · have hset : mapSet ((k1, u1) :: t) p v = (k1, u1) :: mapSet t p v := by
        simp [mapSet, he]
      rw [hset, List.map_cons, List.nodup_cons]
      refine ⟨fun hm => ?_,
        ih (fun e2 he2 => hfresh e2 (List.mem_cons_of_mem _ he2)) h.2⟩
      rcases List.mem_map.mp hm with ⟨e2, he2, heq⟩
      rcases mem_mapSet e2 he2 with h2 | h2
      · exact h.1 (heq ▸ List.mem_map_of_mem _ h2)
      · rw [h2] at heq
        exact hfresh (k1, u1) (List.mem_cons_self _ _) heq.symm

theorem registerUser_preserves_distinct (users : Users) (p nm : String)
    (sock : Socket) (h : usernamesDistinctModCase users) :
    usernamesDistinctModCase (registerUser users p nm sock).users := by
  unfold registerUser
  cases hx : findByUsername users nm with
  | some v => simpa using h
  | none =>
    simp only [hx, Option.isSome_none, Bool.false_eq_true, if_false]
    exact nodupLower_mapSet (findByUsername_eq_none_forall hx) h

theorem handleLogin_users_cases (st : ServerState) (ws : Socket)
    (peerId : String) (uname : Option String) :
    (handleLogin st ws peerId uname).1.users = st.users ∨
    ∃ nm, (handleLogin st ws peerId uname).1.users =
      (registerUser st.users peerId nm ws).users := by
  cases uname with
  | none => left; rfl
  | some un =>
    by_cases h1 : jsTrim un = ""
    · left; simp [handleLogin, h1]
    · cases hok : (registerUser st.users peerId ((jsTrim un).take 32) ws).ok with
      | false => left; simp [handleLogin, h1, hok]
      | true =>
        right
        exact ⟨(jsTrim un).take 32, by simp [handleLogin, h1, hok]⟩

/-- C4: `login(username)` trims and truncates the name to 32 characters;
an absent or whitespace-only name yields `login-error`; a
case-insensitive duplicate yields `login-error` with the registry
unchanged; otherwise the user is registered under the processed name and
the reply is `login-ok{peerId}`.  Every branch preserves the invariant
that no two registered users share a username modulo case. -/
theorem handleLogin_spec (st : ServerState) (ws : Socket) (peerId : String) :
    (handleLogin st ws peerId none =
      (st, send ws (.loginError "Username is required."))) ∧
    (∀ uname, jsTrim uname = "" →
      handleLogin st ws peerId (some uname) =
        (st, send ws (.loginError "Username is required."))) ∧
    (∀ uname, jsTrim uname ≠ "" →
      (findByUsername st.users ((jsTrim uname).take 32)).isSome = true →
      handleLogin st ws peerId (some uname) =
        (st, send ws (.loginError
          s!"Username \"{(jsTrim uname).take 32}\" is already taken."))) ∧
    (∀ uname, jsTrim uname ≠ "" →
      findByUsername st.users ((jsTrim uname).take 32) = none →
      handleLogin st ws peerId (some uname) =
        ({ st with
            users := mapSet st.users peerId ⟨peerId, (jsTrim uname).take 32, ws, none⟩ },
         send ws (.loginOk peerId))) ∧
    (∀ uname, usernamesDistinctModCase st.users →
      usernamesDistinctModCase (handleLogin st ws peerId uname).1.users) := by
  refine ⟨rfl, ?_, ?_, ?_, ?_⟩
  · intro uname h
    simp [handleLogin, h]
  · intro uname h1 h2
    simp [handleLogin, h1, registerUser, h2]
  · intro uname h1 h2
    simp [handleLogin, h1, registerUser, h2]
  · intro uname hdist
    rcases handleLogin_users_cases st ws peerId uname with he | ⟨nm, he⟩
    · rw [he]; exact hdist
    · rw [he]; exact registerUser_preserves_distinct st.users peerId nm ws hdist

theorem handleLogin_spec_witness :
    handleLogin ⟨[("p1", ⟨"p1", "alice", ⟨"s1", true⟩, none⟩)], []⟩
        ⟨"s2", true⟩ "p2" (some " ALICE ") =
      (⟨[("p1", ⟨"p1", "alice", ⟨"s1", true⟩, none⟩)], []⟩,
       [("s2", OutMsg.loginError "Username \"ALICE\" is already taken.")]) ∧
    handleLogin ⟨[("p1", ⟨"p1", "alice", ⟨"s1", true⟩, none⟩)], []⟩
        ⟨"s2", true⟩ "p2" (some "bob") =
      (⟨[("p1", ⟨"p1", "alice", ⟨"s1", true⟩, none⟩),
         ("p2", ⟨"p2", "bob", ⟨"s2", true⟩, none⟩)], []⟩,
       [("s2", OutMsg.loginOk "p2")]) ∧
    usernamesDistinctModCase
      (handleLogin ⟨[("p1", ⟨"p1", "alice", ⟨"s1", true⟩, none⟩)], []⟩
        ⟨"s2", true⟩ "p2" (some "bob")).1.users := by
  refine ⟨?_, ?_, ?_⟩
  · have h := (handleLogin_spec ⟨[("p1", ⟨"p1", "alice", ⟨"s1", true⟩, none⟩)], []⟩
      ⟨"s2", true⟩ "p2").2.2.1 " ALICE " (by decide) (by decide)
    rw [h]
    decide
  · have h := (handleLogin_spec ⟨[("p1", ⟨"p1", "alice", ⟨"s1", true⟩, none⟩)], []⟩
      ⟨"s2", true⟩ "p2").2.2.2.1 "bob" (by decide) (by decide)
    rw [h]
    decide
  · exact (handleLogin_spec ⟨[("p1", ⟨"p1", "alice", ⟨"s1", true⟩, none⟩)], []⟩
      ⟨"s2", true⟩ "p2").2.2.2.2 (some "bob")
      (by unfold usernamesDistinctModCase; decide)

/-! Claim C6 — room registry invariants. -/

theorem leaveAll_flags (k : String) : ∀ (ps : List String) (rooms : Rooms) (r : Room),
    getRoom rooms k = some r →
    (r.peers.map Prod.fst).Perm ps →
    ps ≠ [] → (rooms.map Prod.fst).Nodup →
    (leaveAll rooms k ps).2 = List.replicate (ps.length - 1) false ++ [true] ∧
    getRoom (leaveAll rooms k ps).1 k = none := by
  intro ps
  induction ps with
  | nil => intro rooms r _ _ hne _; exact absurd rfl hne
  | cons p t ih =>
    intro rooms r hr hperm _ hnodup
    have hr' : mapGet rooms k = some r := hr
    have hleave : leaveRoom rooms k p =
        ⟨if (mapDelete r.peers p).isEmpty then mapDelete rooms k
         else mapSet rooms k ({ r with peers := mapDelete r.peers p }),
         some ({ r with peers := mapDelete r.peers p }),
         (mapDelete r.peers p).isEmpty⟩ := by
      simp [leaveRoom, hr']
    have hperm2 : ((mapDelete r.peers p).map Prod.fst).Perm t := by
      rw [keys_mapDelete]
      have h2 := hperm.erase p
      simpa [List.erase_cons_head] using h2
    cases t with
    | nil =>
      have hnil : mapDelete r.peers p = [] :=
        List.map_eq_nil.mp hperm2.eq_nil
      have hE : (mapDelete r.peers p).isEmpty = true := by rw [hnil]; rfl
      show ((leaveAll rooms k [p]).2 = _ ∧ _)
      unfold leaveAll
      rw [hleave]
      simp only [hE, if_true]
      refine ⟨rfl, ?_⟩
      exact mapGet_mapDelete_self hnodup
    | cons q t2 =>
      have hne2 : mapDelete r.peers p ≠ [] := by
        intro h0
        rw [h0] at hperm2
        exact List.cons_ne_nil q t2 hperm2.symm.eq_nil
      have hE : (mapDelete r.peers p).isEmpty = false := by
        cases hd : mapDelete r.peers p with
        | nil => exact absurd hd hne2
        | cons a b => rfl
      have hr2 : getRoom (mapSet rooms k ({ r with peers := mapDelete r.peers p })) k =
          some ({ r with peers := mapDelete r.peers p }) :=
        mapGet_mapSet_self _ _ _
      have hnodup2 : ((mapSet rooms k
          ({ r with peers := mapDelete r.peers p })).map Prod.fst).Nodup :=
        keys_mapSet_nodup hnodup
      obtain ⟨hf, hg⟩ := ih
        (mapSet rooms k ({ r with peers := mapDelete r.peers p }))
        ({ r with peers := mapDelete r.peers p })
        hr2 hperm2 (List.cons_ne_nil q t2) hnodup2
      have hneg : ¬((mapDelete r.peers p).isEmpty = true) := by
        rw [hE]; exact Bool.false_ne_true
      constructor
      · show (leaveRoom rooms k p).wasEmpty ::
          (leaveAll (leaveRoom rooms k p).rooms k (q :: t2)).2 = _
        rw [hleave]
        show (mapDelete r.peers p).isEmpty ::
          (leaveAll (if (mapDelete r.peers p).isEmpty then mapDelete rooms k
            else mapSet rooms k ({ r with peers := mapDelete r.peers p }))
            k (q :: t2)).2 = _
        rw [if_neg hneg, hE, hf]
        simp [List.replicate_succ]
      · show getRoom (leaveAll (leaveRoom rooms k p).rooms k (q :: t2)).1 k = none
        rw [hleave]
        show getRoom (leaveAll (if (mapDelete r.peers p).isEmpty then mapDelete rooms k
          else mapSet rooms k ({ r with peers := mapDelete r.peers p }))
          k (q :: t2)).1 k = none
        rw [if_neg hneg]
        exact hg

/-- C6: every stored room is non-empty — `createRoom` inserts the host
as sole member, a successful `joinRoom` only adds a member, and
`leaveRoom` deletes the room exactly when its member set empties.  After
the last member leaves, `get(key)` finds nothing; across any sequence of
leaves draining a room, `wasEmpty` is true exactly once, on the last
leave; and `leaveRoom` on an unknown key returns room = none with
`wasEmpty = true`. -/
theorem roomRegistry_spec :
    (∀ rooms key now host un sock,
      (createRoom rooms key now host un sock).2.peers = [(host, ⟨un, sock⟩)] ∧
      (roomsNonEmpty rooms → roomsNonEmpty (createRoom rooms key now host un sock).1)) ∧
    (∀ rooms key p un sock rooms2 room,
      joinRoom rooms key p un sock = .ok (rooms2, room) →
      roomsNonEmpty rooms → roomsNonEmpty rooms2) ∧
    (∀ rooms key p, roomsNonEmpty rooms →
      roomsNonEmpty (leaveRoom rooms key p).rooms) ∧
    (∀ rooms key p, getRoom rooms key = none →
      leaveRoom rooms key p = ⟨rooms, none, true⟩) ∧
    (∀ rooms key r ps, getRoom rooms key = some r →
      (r.peers.map Prod.fst).Perm ps → ps ≠ [] → (rooms.map Prod.fst).Nodup →
      (leaveAll rooms key ps).2 = List.replicate (ps.length - 1) false ++ [true] ∧
      getRoom (leaveAll rooms key ps).1 key = none) := by
  refine ⟨?_, ?_, ?_, ?_, ?_⟩
  · intro rooms key now host un sock
    refine ⟨rfl, fun h e he => ?_⟩
    rcases mem_mapSet e he with hm | hm
    · exact h e hm
    · rw [hm]
      simp
  · intro rooms key p un sock rooms2 room hok h
    cases hg : mapGet rooms key with
    | none => simp [joinRoom, hg] at hok
    | some r0 =>
      by_cases hp : (mapGet r0.peers p).isSome = true
      · simp [joinRoom, hg, hp] at hok
      · have hp2 : mapGet r0.peers p = none := by
          cases hx : mapGet r0.peers p with
          | none => rfl
          | some v => rw [hx] at hp; exact absurd rfl hp
        have hok2 : (mapSet rooms key
            ({ r0 with peers := mapSet r0.peers p ⟨un, sock⟩ }) = rooms2) ∧
            ({ r0 with peers := mapSet r0.peers p ⟨un, sock⟩ } : Room) = room := by
          have h3 := hok
          simp only [joinRoom, hg, hp2, Option.isSome_none, Bool.false_eq_true,
            if_false, Except.ok.injEq, Prod.mk.injEq] at h3
          exact h3
        intro e he
        rw [← hok2.1] at he
        rcases mem_mapSet e he with hm | hm
        · exact h e hm
        · rw [hm]
          exact mapSet_ne_nil _ _ _
  · intro rooms key p h
    cases hg : mapGet rooms key with
    | none =>
      have hlv : leaveRoom rooms key p = ⟨rooms, none, true⟩ := by
        simp [leaveRoom, hg]
      rw [hlv]
      exact h
    | some r0 =>
      have hlv : leaveRoom rooms key p =
          ⟨if (mapDelete r0.peers p).isEmpty then mapDelete rooms key
           else mapSet rooms key ({ r0 with peers := mapDelete r0.peers p }),
           some ({ r0 with peers := mapDelete r0.peers p }),
           (mapDelete r0.peers p).isEmpty⟩ := by
        simp [leaveRoom, hg]
      rw [hlv]
      by_cases hE : (mapDelete r0.peers p).isEmpty = true
      · show roomsNonEmpty (if (mapDelete r0.peers p).isEmpty then _ else _)
        rw [if_pos hE]
        intro e he
        exact h e (mem_mapDelete e he)
      · show roomsNonEmpty (if (mapDelete r0.peers p).isEmpty then _ else _)
        rw [if_neg hE]
        intro e he
        rcases mem_mapSet e he with hm | hm
        · exact h e hm
        · rw [hm]
          show mapDelete r0.peers p ≠ []
          intro h0
          exact hE (by rw [h0]; rfl)
  · intro rooms key p h
    have h' : mapGet rooms key = none := h
    simp [leaveRoom, h']
  · intro rooms key r ps hr hperm hne hnodup
    exact leaveAll_flags key ps rooms r hr hperm hne hnodup

theorem roomRegistry_spec_witness :
    roomsNonEmpty ((createRoom [] "K" 0 "A" "alice" ⟨"sA", true⟩).1) ∧
    leaveRoom ([] : Rooms) "K" "A" = ⟨[], none, true⟩ ∧
    (leaveAll
      [("K", ⟨"K", "A",
        [("A", ⟨"alice", ⟨"sA", true⟩⟩), ("B", ⟨"bob", ⟨"sB", true⟩⟩)], 0⟩)]
      "K" ["A", "B"]).2 = [false, true] ∧
    getRoom (leaveAll
      [("K", ⟨"K", "A",
        [("A", ⟨"alice", ⟨"sA", true⟩⟩), ("B", ⟨"bob", ⟨"sB", true⟩⟩)], 0⟩)]
      "K" ["A", "B"]).1 "K" = none := by
  have h5 := roomRegistry_spec.2.2.2.2
    [("K", ⟨"K", "A",
      [("A", ⟨"alice", ⟨"sA", true⟩⟩), ("B", ⟨"bob", ⟨"sB", true⟩⟩)], 0⟩)]
    "K" ⟨"K", "A",
      [("A", ⟨"alice", ⟨"sA", true⟩⟩), ("B", ⟨"bob", ⟨"sB", true⟩⟩)], 0⟩
    ["A", "B"] rfl (List.Perm.refl _) (by decide) (by decide)
  refine ⟨?_, ?_, ?_, h5.2⟩
  · exact (roomRegistry_spec.1 [] "K" 0 "A" "alice" ⟨"sA", true⟩).2
      (fun e he => absurd he (List.not_mem_nil e))
  · exact roomRegistry_spec.2.2.2.1 [] "K" "A" rfl
  · rw [h5.1]
    decide

/-! Claim C7 — the request/response helper. -/

theorem waitInv_step (successEvent : String) (s : WaitState) (e : WaitEvent)
    (h : waitInv s) : waitInv (waitStep successEvent s e) := by
  rcases h with ⟨h0, hs, he, ht⟩ | ⟨h1, hs, he, ht⟩
  · cases e with
    | emitSuccess m =>
      right
      simp [waitStep, hs, waitCleanupFire, h0]
    | emitError m =>
      right
      simp [waitStep, he, waitCleanupFire, h0]
    | timerFires =>
      right
      simp [waitStep, ht, waitCleanupFire, h0]
  · cases e with
    | emitSuccess m =>
      simp only [waitStep, hs, Bool.false_eq_true, if_false]
      exact Or.inr ⟨h1, hs, he, ht⟩
    | emitError m =>
      simp only [waitStep, he, Bool.false_eq_true, if_false]
      exact Or.inr ⟨h1, hs, he, ht⟩
    | timerFires =>
      simp only [waitStep, ht, Bool.false_eq_true, if_false]
      exact Or.inr ⟨h1, hs, he, ht⟩

theorem waitInv_foldl (successEvent : String) (events : List WaitEvent) :
    ∀ s, waitInv s → waitInv (events.foldl (waitStep successEvent) s) := by
  induction events with
  | nil => intro s h; exact h
  | cons e t ih =>
    intro s h
    rw [List.foldl_cons]
    exact ih _ (waitInv_step successEvent s e h)

theorem runWait_completions_le_one (successEvent : String)
    (events : List WaitEvent) : (runWait successEvent events).completions ≤ 1 := by
  have h := waitInv_foldl successEvent events waitInit
    (Or.inl ⟨rfl, rfl, rfl, rfl⟩)
  rcases h with ⟨h0, _⟩ | ⟨h1, _⟩
  · rw [show (runWait successEvent events).completions =
      (events.foldl (waitStep successEvent) waitInit).completions from rfl, h0]
    omega
  · rw [show (runWait successEvent events).completions =
      (events.foldl (waitStep successEvent) waitInit).completions from rfl, h1]

theorem foldl_waitStep_settled (successEvent : String) (s : WaitState)
    (hs : s.successOn = false) (he : s.errorOn = false) (ht : s.timerOn = false) :
    ∀ events : List WaitEvent, events.foldl (waitStep successEvent) s = s := by
  intro events
  induction events with
  | nil => rfl
  | cons e t ih =>
    rw [List.foldl_cons]
    have hstep : waitStep successEvent s e = s := by
      cases e with
      | emitSuccess m => simp [waitStep, hs]
      | emitError m => simp [waitStep, he]
      | timerFires => simp [waitStep, ht]
    rw [hstep]
    exact ih

/-- C7 counterexample: when only the timer fires, the helper rejects with
a plain `new Error(...)` — its `name` is `"Error"`, not
`"SignalingError"` — contradicting the claimed SignalingError rejection
(`SignalingError` instances carry `name = "SignalingError"`). -/
theorem waitFor_timeout_not_signalingError_ce :
    (runWait "room-created" [WaitEvent.timerFires]).result =
      some (.rejected
        (mkJsError "Server did not respond in time (waiting for room-created)")) ∧
    (mkJsError "Server did not respond in time (waiting for room-created)").name =
      "Error" ∧
    "Error" ≠ "SignalingError" := by
  refine ⟨rfl, rfl, by decide⟩

/-- C7 (amended): if neither the success event nor the error event
arrives, the helper's promise rejects at the 10-second timer with a plain
`Error` (not a `SignalingError`) whose message carries the name of the
awaited success event; both one-shot listeners are removed, and on every
event sequence the promise completes at most once (here: exactly once). -/
theorem waitFor_timeout_spec (successEvent : String) (events : List WaitEvent)
    (hOnly : ∀ e ∈ events, e = WaitEvent.timerFires)
    (hMem : WaitEvent.timerFires ∈ events) :
    runWait successEvent events =
      ⟨false, false, false,
       some (.rejected (mkJsError
         ("Server did not respond in time (waiting for " ++ successEvent ++ ")"))),
       1⟩ ∧
    (mkJsError
      ("Server did not respond in time (waiting for " ++ successEvent ++ ")")).name =
      "Error" ∧
    WAIT_TIMEOUT_MS = 10000 ∧
    (∀ evs : List WaitEvent, (runWait successEvent evs).completions ≤ 1) := by
  refine ⟨?_, rfl, rfl, fun evs => runWait_completions_le_one successEvent evs⟩
  cases events with
  | nil => exact absurd hMem (List.not_mem_nil _)
  | cons e t =>
    have he : e = .timerFires := hOnly e (List.mem_cons_self _ _)
    subst he
    show (WaitEvent.timerFires :: t).foldl (waitStep successEvent) waitInit = _
    rw [List.foldl_cons]
    have hstep : waitStep successEvent waitInit .timerFires =
        ⟨false, false, false,
         some (.rejected (mkJsError
           ("Server did not respond in time (waiting for " ++ successEvent ++ ")"))),
         1⟩ := rfl
    rw [hstep]
    exact foldl_waitStep_settled successEvent _ rfl rfl rfl t

theorem waitFor_timeout_spec_witness :
    runWait "login-ok" [WaitEvent.timerFires] =
      ⟨false, false, false,
       some (.rejected
         (mkJsError "Server did not respond in time (waiting for login-ok)")),
       1⟩ := by
  have h := waitFor_timeout_spec "login-ok" [WaitEvent.timerFires]
    (by intro e he; simpa using he) (by simp)
  rw [h.1]
  rfl

/-! Claim C1 — reconnection. -/

theorem sigStep_inv (w : SigWorld) (e : SigEvent) (h : sigInv w) :
    sigInv (sigStep w e).1 ∧ SigEmit.errConnLost ∉ (sigStep w e).2 := by
  obtain ⟨h1, h2⟩ := h
  cases e with
  | closeFired =>
    by_cases ho : w.socketOpen = true
    · have ha : w.reconnectAttempts = 0 := h2 ho
      by_cases hi : w.intentionalClose = true
      · simp only [sigStep, ho, if_true, hi]
        exact ⟨⟨h1, by intro hx; exact absurd hx (by simp)⟩, by simp⟩
      · simp only [sigStep, ho, if_true, hi, Bool.false_eq_true, if_false,
          scheduleReconnect, ha, MAX_RECONNECT_ATTEMPTS]
        refine ⟨⟨?_, ?_⟩, ?_⟩
        · simp
        · intro hx; exact absurd hx (by simp)
        · simp
    · simp only [sigStep, ho, Bool.false_eq_true, if_false]
      exact ⟨⟨h1, h2⟩, by simp⟩
  | connectSucceeded =>
    cases hp : w.pendingConnect with
    | none =>
      simp only [sigStep, hp]
      exact ⟨⟨h1, h2⟩, by simp⟩
    | some d =>
      simp only [sigStep, hp]
      exact ⟨⟨Nat.zero_le 1, fun _ => rfl⟩, by simp⟩
  | connectFailed =>
    cases hp : w.pendingConnect with
    | none =>
      simp only [sigStep, hp]
      exact ⟨⟨h1, h2⟩, by simp⟩
    | some d =>
      simp only [sigStep, hp]
      exact ⟨⟨h1, h2⟩, by simp⟩

theorem sigRun_inv (events : List SigEvent) :
    ∀ w, sigInv w →
      sigInv (sigRun w events).1 ∧ SigEmit.errConnLost ∉ (sigRun w events).2 := by
  induction events with
  | nil => intro w h; exact ⟨h, by simp [sigRun]⟩
  | cons e t ih =>
    intro w h
    have hstep := sigStep_inv w e h
    have hrest := ih (sigStep w e).1 hstep.1
    refine ⟨hrest.1, ?_⟩
    show SigEmit.errConnLost ∉ (sigStep w e).2 ++ (sigRun (sigStep w e).1 t).2
    rw [List.mem_append]
    rintro (hm | hm)
    · exact hstep.2 hm
    · exact hrest.2 hm

/-- C1 (code bug): after an unexpected close of an established
connection the client schedules exactly one reconnect, 3000 ms out, and
when the server stays dead that attempt fails with `CONNECT_FAILED` and
nothing further happens: `CONN_LOST` is never emitted in any execution
from the established state, because a failed connect attempt never
reschedules (the `close` handler that drives `_scheduleReconnect` is
only ever installed inside the `open` handler) and a successful one
resets the counter, so the counter never reaches the
`MAX_RECONNECT_ATTEMPTS = 5` guard of the `CONN_LOST` branch. -/
theorem signaling_reconnect_dead_server :
    sigRun sigInit [SigEvent.closeFired] =
      (⟨1, false, some 3000, false⟩, [SigEmit.closeEv]) ∧
    sigRun sigInit [SigEvent.closeFired, SigEvent.connectFailed] =
      (⟨1, false, none, false⟩, [SigEmit.closeEv, SigEmit.errConnectFailed]) ∧
    RECONNECT_DELAY_MS = 3000 ∧ MAX_RECONNECT_ATTEMPTS = 5 ∧
    (∀ events : List SigEvent,
      SigEmit.errConnLost ∉ (sigRun sigInit events).2 ∧
      (sigRun sigInit events).1.reconnectAttempts ≤ 1) := by
  refine ⟨by decide, by decide, rfl, rfl, fun events => ?_⟩
  have h := sigRun_inv events sigInit ⟨Nat.zero_le 1, fun _ => rfl⟩
  exact ⟨h.2, h.1.1⟩

/-! Claim C10 — mute before a self participant exists. -/

theorem mapGet_foldl_upsert (key : Option String) :
    ∀ (peers : List (String × String)) (acc : SessionState),
      (∀ q ∈ peers, some q.1 ≠ key) →
      mapGet (peers.foldl
        (fun a p => (upsertParticipant a (some p.1) p.2 false).1) acc).participants
        key = mapGet acc.participants key := by
  intro peers
  induction peers with
  | nil => intro acc _; rfl
  | cons q t ih =>
    intro acc hne
    rw [List.foldl_cons]
    rw [ih _ (fun x hx => hne x (List.mem_cons_of_mem _ hx))]
    exact mapGet_mapSet_ne _ _ _ _ (hne q (List.mem_cons_self _ _))

theorem foldl_upsert_audioMuted :
    ∀ (peers : List (String × String)) (acc : SessionState),
      (peers.foldl
        (fun a p => (upsertParticipant a (some p.1) p.2 false).1) acc).audioMuted =
        acc.audioMuted := by
  intro peers
  induction peers with
  | nil => intro acc; rfl
  | cons q t ih =>
    intro acc
    rw [List.foldl_cons, ih]
    rfl

/-- C10 (implicit): calling `setMuted(true)` before a self participant
exists mutes the audio adapter but emits no `participant-update`; when
`room-created` or `room-joined` later (re)creates the self participant it
carries `isMuted = false` and `isSpeaking = false` regardless of the
adapter state, so the participant's `isMuted` flag and the session's
`isMuted` getter disagree. -/
theorem setMuted_before_room_disagreement (s : SessionState)
    (pid roomKey : String)
    (hpid : s.peerId = some pid)
    (hnone : mapGet s.participants (some pid) = none)
    (hunmuted : s.audioMuted = false) :
    (setMuted s true).2 = false ∧
    (setMuted s true).1.audioMuted = true ∧
    (setMuted s true).1.participants = s.participants ∧
    sessionIsMuted (setMuted s true).1 = true ∧
    mapGet (onRoomCreated (setMuted s true).1 roomKey).1.participants (some pid) =
      some ⟨some pid, s.username, false, false, true⟩ ∧
    sessionIsMuted (onRoomCreated (setMuted s true).1 roomKey).1 = true ∧
    (∀ peers : List (String × String), pid ∉ peers.map Prod.fst →
      mapGet (onRoomJoined (setMuted s true).1 roomKey peers).participants
        (some pid) = some ⟨some pid, s.username, false, false, true⟩ ∧
      sessionIsMuted (onRoomJoined (setMuted s true).1 roomKey peers) = true) := by
  have hsm : setMuted s true = ({ s with audioMuted := true }, false) := by
    simp [setMuted, hpid, hnone]
  have hkeyne : ∀ (peers : List (String × String)), pid ∉ peers.map Prod.fst →
      ∀ q ∈ peers, some q.1 ≠ some pid := by
    intro peers hnp q hq he
    apply hnp
    rcases Option.some.injEq .. ▸ he with he2
    have he3 : q.1 = pid := by injection he
    exact he3 ▸ List.mem_map_of_mem Prod.fst hq
  refine ⟨by rw [hsm], by rw [hsm], by rw [hsm], by rw [hsm]; rfl, ?_, ?_, ?_⟩
  · rw [hsm]
    show mapGet (onRoomCreated ({ s with audioMuted := true }) roomKey).1.participants
      (some pid) = _
    unfold onRoomCreated upsertParticipant
    show mapGet (mapSet s.participants s.peerId
      ⟨s.peerId, s.username, false, false, true⟩) (some pid) = _
    rw [hpid]
    exact mapGet_mapSet_self _ _ _
  · rw [hsm]
    rfl
  · intro peers hnp
    rw [hsm]
    have hrj : ∀ (x : SessionState) (rk : String) (ps : List (String × String)),
        onRoomJoined x rk ps = ps.foldl
          (fun a p => (upsertParticipant a (some p.1) p.2 false).1)
          (upsertParticipant ({ x with roomKey := some rk })
            x.peerId x.username true).1 :=
      fun x rk ps => rfl
    constructor
    · rw [hrj]
      rw [mapGet_foldl_upsert (some pid) peers _ (hkeyne peers hnp)]
      show mapGet (mapSet s.participants s.peerId
        ⟨s.peerId, s.username, false, false, true⟩) (some pid) = _
      rw [hpid]
      exact mapGet_mapSet_self _ _ _
    · rw [hrj]
      show (peers.foldl (fun a p => (upsertParticipant a (some p.1) p.2 false).1)
        _).audioMuted = true
      rw [foldl_upsert_audioMuted]
      rfl

theorem setMuted_before_room_disagreement_witness :
    (setMuted ⟨some "p1", "alice", none, [], false⟩ true).2 = false ∧
    mapGet (onRoomCreated (setMuted
      ⟨some "p1", "alice", none, [], false⟩ true).1 "KEY").1.participants
      (some "p1") = some ⟨some "p1", "alice", false, false, true⟩ ∧
    sessionIsMuted (onRoomCreated (setMuted
      ⟨some "p1", "alice", none, [], false⟩ true).1 "KEY").1 = true := by
  have h := setMuted_before_room_disagreement
    ⟨some "p1", "alice", none, [], false⟩ "p1" "KEY" rfl rfl rfl
  exact ⟨h.1, h.2.2.2.2.1, h.2.2.2.2.2.1⟩

/-! Claim C8 — validator and normaliser. -/

/-- C8 counterexample: `isValid(normalise(k)) = isValid(k)` fails for the
string `" ACD-EFG-HJK"`.  Its surrounding whitespace makes `isValidRoomKey`
reject it (the regex is anchored and the validator never trims), while
`normaliseRoomKey` strips the whitespace and produces a valid key. -/
theorem roomKey_validator_idempotence_ce :
    isValidRoomKey (normaliseRoomKey " ACD-EFG-HJK") ≠
      isValidRoomKey " ACD-EFG-HJK" ∧
    isValidRoomKey (normaliseRoomKey " ACD-EFG-HJK") = true ∧
    isValidRoomKey " ACD-EFG-HJK" = false := by
  refine ⟨?_, ?_, ?_⟩ <;> decide

/-- C8 (amended): for every string `k`,
`isValid(normalise(k)) = isValid(k.trim())` — equivalently, the claimed
identity `isValid(normalise(k)) = isValid(k)` holds exactly on strings
whose trimming does not affect validity, and the only failures are
whitespace-padded valid keys. -/
theorem roomKey_validator_normalise_trim (k : String) :
    isValidRoomKey (normaliseRoomKey k) = isValidRoomKey (jsTrim k) := by
  show matchesRoomKeyRe ((jsToUpper (jsTrim (jsToUpper k))).data) =
    matchesRoomKeyRe ((jsToUpper (jsTrim k)).data)
  show matchesRoomKeyRe ((jsTrimList (k.data.map jsCharUpper)).map jsCharUpper) =
    matchesRoomKeyRe ((jsTrimList k.data).map jsCharUpper)
  rw [jsTrimList_map_jsCharUpper, map_jsCharUpper_idem]

end VoiceSync
